import Mathlib

/-!
Verification development for the AIM iterative-refinement engine.

The Python modules `utils/constraints.py`, `review.py`, `refinement_loop.py`
and `task_manager.py` are shallowly embedded below.  Python strings are
`String` (lists of characters), Python floats arising from the scoring law are
`ℚ` (all score arithmetic in the source is on decimal literals), fallible code
returns `Except`, and the external agents (generative agent and review agent)
are modelled as arbitrary functions `AgentTask → AgentOutput`, quantified over
in every theorem.  `re.finditer` is embedded by a backtracking regular
expression engine over `List Char` mirroring Python `re` semantics (leftmost
match, left-biased alternation, greedy/lazy quantifiers, `$` matching at the
end of the string or just before a final newline).
-/

set_option maxRecDepth 8000

namespace AIM

/-! ## Python string helpers -/

/-- Python whitespace for `str.strip` and the regex class `\s`. -/
def pyIsSpace (c : Char) : Bool :=
  c == ' ' || c == '\t' || c == '\n' || c == '\r' || c == '\x0b' || c == '\x0c'

/-- `sub` occurs as a contiguous run inside `l`. -/
def listContains (sub l : List Char) : Bool :=
  l.tails.any (fun t => sub.isPrefixOf t)

/-- Python `sub in s` substring test. -/
def strContains (s sub : String) : Bool :=
  listContains sub.data s.data

/-- Python `str.lower()` (ASCII; every character the source compares is ASCII). -/
def pyLower (s : String) : String :=
  ⟨s.data.map Char.toLower⟩

/-- Python `str.upper()` (ASCII). -/
def pyUpper (s : String) : String :=
  ⟨s.data.map Char.toUpper⟩

/-- Python `str.strip()`. -/
def pyStrip (s : String) : String :=
  ⟨((s.data.dropWhile pyIsSpace).reverse.dropWhile pyIsSpace).reverse⟩

/-- Python `str(x)` for an `Optional[str]` value. -/
def pyStr : Option String → String
  | Option.none => "None"
  | some s => s

/-! ## Regular expression engine (embedding of the `re` calls in the source)

Only the constructs used by `ConstraintParser`'s patterns are represented:
single-character predicates (character classes, case-insensitive literals),
sequencing, alternation (left-biased), greedy and lazy Kleene star, a single
capturing group, and `$`. -/

inductive Regex where
  | eps
  | chr (p : Char → Bool)
  | seq (a b : Regex)
  | alt (a b : Regex)
  | star (lazyq : Bool) (a : Regex)
  | group (a : Regex)
  | eos

/-- Structural size of a pattern, used to provision recursion fuel. -/
def Regex.size : Regex → Nat
  | .eps => 1
  | .eos => 1
  | .chr _ => 1
  | .seq a b => a.size + b.size + 1
  | .alt a b => a.size + b.size + 1
  | .star _ a => a.size + 1
  | .group a => a.size + 1

/-- Backtracking matcher in continuation-passing style.  `k` receives the
remaining input and the current group-1 capture; the first continuation
success wins, which reproduces Python `re`'s backtracking order (left-biased
alternation, greedy stars try the longer continuation first, lazy stars the
shorter).  `fuel` decreases at every step; `matchAt` provisions enough of it
that no search path of the source's patterns ever exhausts it (each star body
in the source consumes at least one character per unfolding). -/
def matchRec : Nat → Regex → List Char → Option (List Char) →
    (List Char → Option (List Char) → Option (List Char × Option (List Char))) →
    Option (List Char × Option (List Char))
  | 0, _, _, _, _ => Option.none
  | fuel + 1, r, s, cap, k =>
    match r with
    | .eps => k s cap
    | .eos => if s = [] ∨ s = ['\n'] then k s cap else Option.none
    | .chr p =>
      match s with
      | [] => Option.none
      | c :: rest => if p c then k rest cap else Option.none
    | .seq a b => matchRec fuel a s cap (fun s' cap' => matchRec fuel b s' cap' k)
    | .alt a b =>
      match matchRec fuel a s cap k with
      | some res => some res
      | Option.none => matchRec fuel b s cap k
    | .star lazyq a =>
      if lazyq then
        match k s cap with
        | some res => some res
        | Option.none =>
          matchRec fuel a s cap (fun s' cap' => matchRec fuel (.star lazyq a) s' cap' k)
      else
        match matchRec fuel a s cap
            (fun s' cap' => matchRec fuel (.star lazyq a) s' cap' k) with
        | some res => some res
        | Option.none => k s cap
    | .group a =>
      matchRec fuel a s cap (fun s' _ => k s' (some (s.take (s.length - s'.length))))

/-- Anchored match of `r` at the head of `s`: returns the number of characters
consumed by group 0 and the group-1 capture. -/
def matchAt (r : Regex) (s : List Char) : Option (Nat × Option (List Char)) :=
  (matchRec ((r.size + 2) * (s.length + 2) + 2) r s Option.none
      (fun rem cap => some (rem, cap))).map
    (fun p => (s.length - p.1.length, p.2))

/-- One match reported by `finditer`. -/
structure RMatch where
  start : Nat
  len : Nat
  group1 : Option (List Char)
deriving DecidableEq, Inhabited

/-- Group 0 of a match, as a substring of the subject. -/
def RMatch.group0 (m : RMatch) (total : List Char) : List Char :=
  (total.drop m.start).take m.len

/-- Scanning loop of `re.finditer`: try an anchored match at each position,
emit it and resume after its end (or one past an empty match). -/
def finditerAux (r : Regex) (total : List Char) : Nat → Nat → List RMatch
  | _, 0 => []
  | pos, fuel + 1 =>
    if pos ≤ total.length then
      match matchAt r (total.drop pos) with
      | some (len, cap) =>
        { start := pos, len := len, group1 := cap } ::
          finditerAux r total (if len = 0 then pos + 1 else pos + len) fuel
      | Option.none => finditerAux r total (pos + 1) fuel
    else []

/-- Python `re.finditer(pattern, s)`. -/
def finditer (r : Regex) (s : String) : List RMatch :=
  finditerAux r s.data 0 (s.data.length + 1)

/-! Pattern combinators. -/

/-- Case-sensitive single character. -/
def rchar (c : Char) : Regex := .chr (fun x => x == c)

/-- Case-insensitive single character (`re.IGNORECASE`). -/
def ciChar (c : Char) : Regex := .chr (fun x => x.toLower == c.toLower)

/-- Case-insensitive literal. -/
def cilit (s : String) : Regex :=
  s.data.foldr (fun c r => .seq (ciChar c) r) .eps

/-- Left-biased alternation of a list of branches. -/
def raltl : List Regex → Regex
  | [] => .eps
  | r :: rest => rest.foldl .alt r

/-- Greedy `+`. -/
def rplus (r : Regex) : Regex := .seq r (.star false r)

/-- Lazy `+?` applied to `.` gives `(.+?)`'s body. -/
def rplusLazy (r : Regex) : Regex := .seq r (.star true r)

/-- Greedy `?`. -/
def ropt (r : Regex) : Regex := .alt r .eps

/-- `\s` -/
def wsChr : Regex := .chr pyIsSpace
/-- `\d` -/
def digitChr : Regex := .chr Char.isDigit
/-- `[A-Z]` under `re.IGNORECASE`. -/
def alphaChr : Regex := .chr Char.isAlpha
/-- `[a-zA-Z0-9]` -/
def alnumChr : Regex := .chr Char.isAlphanum
/-- `\w` -/
def wordChr : Regex := .chr (fun c => c.isAlphanum || c == '_')
/-- `.` (no DOTALL: anything but a newline) -/
def dotChr : Regex := .chr (fun c => !(c == '\n'))
/-- `\s*` -/
def wsStar : Regex := .star false wsChr
/-- `\s+` -/
def wsPlus : Regex := rplus wsChr

/-! ## Constraint data model (`utils/constraints.py`) -/

inductive ConstraintType where
  | output_format | code_quality | test_coverage | performance | security
  | compliance | deadline | language | framework | custom
deriving DecidableEq, Inhabited

/-- The `.value` string of each enum member. -/
def ConstraintType.value : ConstraintType → String
  | .output_format => "output_format"
  | .code_quality => "code_quality"
  | .test_coverage => "test_coverage"
  | .performance => "performance"
  | .security => "security"
  | .compliance => "compliance"
  | .deadline => "deadline"
  | .language => "language"
  | .framework => "framework"
  | .custom => "custom"

/-- The `value` payload of a constraint: absent, a matched string, or the
float a coverage percentage is coerced to. -/
inductive CValue where
  | vNone
  | vStr (s : String)
  | vNum (q : ℚ)
deriving DecidableEq, Inhabited

/-- Python truthiness of the payload (used by `Constraint.__str__`). -/
def CValue.truthy : CValue → Bool
  | .vNone => false
  | .vStr s => !(s == "")
  | .vNum q => !(q == 0)

/-- Python `str(value)`; percentages are whole numbers so the float renders
as `"<n>.0"`. -/
def CValue.toStr : CValue → String
  | .vNone => "None"
  | .vStr s => s
  | .vNum q => if q.den = 1 then toString q.num ++ ".0" else toString q

structure Constraint where
  type : ConstraintType
  description : String
  value : CValue := .vNone
  required : Bool := true
deriving DecidableEq, Inhabited

/-- `Constraint.__str__`. -/
def Constraint.toStr (c : Constraint) : String :=
  c.type.value ++ ": " ++ c.description ++
    (if c.value.truthy then " (" ++ c.value.toStr ++ ")" else "")

/-! The `ConstraintParser.PATTERNS` table, in source (dict-insertion) order. -/

/-- `(?:test coverage|coverage)\s*(?:>|>=|above|at least)\s*(\d+)%` -/
def tcPat1 : Regex :=
  .seq (.alt (cilit "test coverage") (cilit "coverage"))
    (.seq wsStar
      (.seq (raltl [cilit ">", cilit ">=", cilit "above", cilit "at least"])
        (.seq wsStar (.seq (.group (rplus digitChr)) (cilit "%")))))

/-- `(\d+)%\s*(?:test )?coverage` -/
def tcPat2 : Regex :=
  .seq (.group (rplus digitChr))
    (.seq (cilit "%") (.seq wsStar (.seq (ropt (cilit "test ")) (cilit "coverage"))))

/-- `(?:use|using|in|with)\s+(TypeScript|JavaScript|Python|Java|Go|Rust|C\+\+)` -/
def langPat1 : Regex :=
  .seq (raltl [cilit "use", cilit "using", cilit "in", cilit "with"])
    (.seq wsPlus
      (.group (raltl [cilit "TypeScript", cilit "JavaScript", cilit "Python",
        cilit "Java", cilit "Go", cilit "Rust", cilit "C++"])))

/-- `(TypeScript|JavaScript|Python|Java|Go|Rust) strict mode` -/
def langPat2 : Regex :=
  .seq (.group (raltl [cilit "TypeScript", cilit "JavaScript", cilit "Python",
    cilit "Java", cilit "Go", cilit "Rust"])) (cilit " strict mode")

/-- `(?:use|using)\s+([A-Z][a-zA-Z0-9]+(?:\s+[A-Z][a-zA-Z0-9]+)?)\s+(?:SDK|framework|library)` -/
def fwPat : Regex :=
  .seq (.alt (cilit "use") (cilit "using"))
    (.seq wsPlus
      (.seq (.group (.seq alphaChr (.seq (rplus alnumChr)
          (ropt (.seq wsPlus (.seq alphaChr (rplus alnumChr)))))))
        (.seq wsPlus (raltl [cilit "SDK", cilit "framework", cilit "library"]))))

/-- `(FIDO2|OAuth2|GDPR|HIPAA|SOC2)\s+(?:compliance|compliant)` -/
def compPat : Regex :=
  .seq (.group (raltl [cilit "FIDO2", cilit "OAuth2", cilit "GDPR",
    cilit "HIPAA", cilit "SOC2"]))
    (.seq wsPlus (.alt (cilit "compliance") (cilit "compliant")))

/-- `(?:generate|create|output)\s+(documentation|docs|API docs|README)` -/
def ofPat1 : Regex :=
  .seq (raltl [cilit "generate", cilit "create", cilit "output"])
    (.seq wsPlus
      (.group (raltl [cilit "documentation", cilit "docs", cilit "API docs",
        cilit "README"])))

/-- `output format:\s*(\w+)` -/
def ofPat2 : Regex :=
  .seq (cilit "output format:") (.seq wsStar (.group (rplus wordChr)))

/-- The `PATTERNS` dict in insertion order. -/
def PATTERNS : List (ConstraintType × List Regex) :=
  [(.test_coverage, [tcPat1, tcPat2]),
   (.language, [langPat1, langPat2]),
   (.framework, [fwPat]),
   (.compliance, [compPat]),
   (.output_format, [ofPat1, ofPat2])]

/-- The bullet character class `[-â€¢]` as it stands (mojibake) in the source:
`-`, `â` (U+00E2), `€` (U+20AC), `¢` (U+00A2). -/
def bulletClassChr : Regex :=
  .chr (fun c => c == '-' || c == 'â' || c == '€' || c == '¢')

/-- `(?:\n|$)` -/
def eolAlt : Regex := .alt (rchar '\n') .eos

/-- `[-â€¢]\s*(.+?)(?:\n|$)` (case-sensitive). -/
def bulletPat : Regex :=
  .seq bulletClassChr (.seq wsStar (.seq (.group (rplusLazy dotChr)) eolAlt))

/-- `\d+\.\s*(.+?)(?:\n|$)` (case-sensitive). -/
def numberedPat : Regex :=
  .seq (rplus digitChr) (.seq (rchar '.')
    (.seq wsStar (.seq (.group (rplusLazy dotChr)) eolAlt)))

/-- The `requirement_patterns` list. -/
def requirementPatterns : List Regex := [bulletPat, numberedPat]

/-- Numeric value of a digit string (argument of `float(value)`). -/
def digitsToNat (l : List Char) : Nat :=
  l.foldl (fun n c => n * 10 + (c.toNat - '0'.toNat)) 0

/-- Build one pattern-derived constraint (body of the first `for` nest of
`ConstraintParser.parse`). -/
def mkPatternConstraint (t : ConstraintType) (d : String) (m : RMatch) : Constraint :=
  let value : CValue :=
    match m.group1 with
    | some g => .vStr ⟨g⟩
    | Option.none => .vNone
  let value : CValue :=
    if t = .test_coverage then
      match value with
      | .vStr s => if s == "" then .vStr s else .vNum (digitsToNat s.data : ℚ)
      | v => v
    else value
  { type := t, description := ⟨m.group0 d.data⟩, value := value, required := true }

/-- Build one list-derived `custom` constraint if the trimmed captured line
passes the noise filter (body of the second `for` nest of `parse`). -/
def mkCustomConstraint (m : RMatch) : Option Constraint :=
  let requirement := pyStrip ⟨m.group1.getD []⟩
  if requirement ≠ "" ∧ requirement.length > 5 then
    some { type := .custom, description := requirement, value := .vNone, required := true }
  else Option.none

/-- The pattern-derived prefix of `parse`'s result. -/
def patternConstraints (d : String) : List Constraint :=
  PATTERNS.flatMap (fun p => p.2.flatMap (fun r => (finditer r d).map (mkPatternConstraint p.1 d)))

/-- The list-derived suffix of `parse`'s result. -/
def customConstraints (d : String) : List Constraint :=
  requirementPatterns.flatMap (fun r => (finditer r d).filterMap mkCustomConstraint)

/-- `ConstraintParser.parse`. -/
def ConstraintParser.parse (d : String) : List Constraint :=
  patternConstraints d ++ customConstraints d

/-- Stable insertion by match start position. -/
def insertByStart (m : RMatch) : List RMatch → List RMatch
  | [] => [m]
  | x :: xs => if m.start < x.start then m :: x :: xs else x :: insertByStart m xs

/-- Stable sort of matches by start position. -/
def sortByStart (l : List RMatch) : List RMatch := l.foldr insertByStart []

/-- Modelled from the spec's words: the list-derived custom constraints "in
document order of their appearance in the description" — the matches of both
requirement patterns ordered by their position in the text.  The source does
not produce this order; this definition exists to be compared with
`customConstraints`. -/
def customConstraintsInDocOrder (d : String) : List Constraint :=
  (sortByStart (finditer bulletPat d ++ finditer numberedPat d)).filterMap
    mkCustomConstraint

/-- `ConstraintParser.validate_constraint`. -/
def ConstraintParser.validate_constraint (c : Constraint) (_output : Option String) :
    Bool × Option String :=
  if c.type = .test_coverage then
    (true, Option.none)
  else
    (true, Option.none)

/-! ## Agent data model (`agents/base.py`)

Agents are external generative services; a behaviour is an arbitrary function
from the task it receives to the output it reports.  `context` values are
modelled as strings (the source stores strings and stringified values there;
no claim inspects them). -/

structure AgentTask where
  id : String
  description : String
  context : List (String × String)
  constraints : List Constraint
  iteration : Nat := 0
  feedback : Option String := Option.none
deriving DecidableEq, Inhabited

structure AgentOutput where
  task_id : String
  success : Bool
  output : Option String
  metadata : List (String × String) := []
  error : Option String := Option.none
deriving DecidableEq, Inhabited

/-- A Python exception escaping the embedded code (the only reachable one is
`review_output.output.upper()` when a review agent reports success with
`output=None`). -/
inductive PyExn where
  | attributeError
deriving DecidableEq

/-! ## Review and validation system (`review.py`) -/

structure ValidationIssue where
  constraint : String
  severity : String
  description : String
  suggestion : Option String := Option.none
deriving DecidableEq, Inhabited

structure ValidationResult where
  perfect_match : Bool
  issues : List ValidationIssue
  score : ℚ
  feedback : String
deriving DecidableEq, Inhabited

namespace ReviewSystem

/-- `ReviewSystem._build_review_prompt`. -/
def build_review_prompt (task_description : String) (output : Option String)
    (constraints : List Constraint) : String :=
  "Review the following output for the given task.\n\nTASK:\n" ++ task_description ++
    "\n\nCONSTRAINTS:\n" ++
    String.join ((constraints.enum).map
      (fun p => toString (p.1 + 1) ++ ". " ++ p.2.toStr ++ "\n")) ++
    "\nOUTPUT TO REVIEW:\n" ++ pyStr output ++
    "\n\nPlease carefully review the output and identify any issues:\n" ++
    "1. Does it fully satisfy the task requirements?\n" ++
    "2. Does it meet all specified constraints?\n" ++
    "3. Are there any errors, inconsistencies, or quality issues?\n" ++
    "4. Is anything missing or incomplete?\n\n" ++
    "Provide specific, actionable feedback for any issues found.\n" ++
    "If the output is perfect, clearly state \"OUTPUT IS PERFECT - ALL CONSTRAINTS MET\".\n"

/-- The problem-indicating vocabulary of `_parse_review_output`. -/
def issueWords : List String := ["error", "issue", "problem", "missing", "incorrect"]

/-- The urgency vocabulary of `_parse_review_output`. -/
def criticalWords : List String := ["error", "critical", "must"]

/-- `ReviewSystem._parse_review_output`. -/
def parse_review_output (review_text : String) : List ValidationIssue :=
  if strContains (pyUpper review_text) "OUTPUT IS PERFECT" ∨
      strContains (pyUpper review_text) "ALL CONSTRAINTS MET" then
    []
  else
    (review_text.splitOn "\n").filterMap (fun line =>
      let line_lower := pyLower line
      if issueWords.any (fun w => strContains line_lower w) then
        some { constraint := "Quality Review",
               severity := if criticalWords.any (fun w => strContains line_lower w) then
                   "critical"
                 else "warning",
               description := pyStrip line,
               suggestion := Option.none }
      else Option.none)

/-- The numbered issue block of `_generate_feedback`. -/
def issueLines (l : List ValidationIssue) : String :=
  String.join ((l.enum).map (fun p =>
    toString (p.1 + 1) ++ ". " ++ p.2.description ++ "\n" ++
      (match p.2.suggestion with
       | some s => "   Suggestion: " ++ s ++ "\n"
       | Option.none => "")))

/-- `ReviewSystem._generate_feedback`. -/
def generate_feedback (issues : List ValidationIssue) (_constraints : List Constraint)
    (iteration : Nat) : String :=
  if issues = [] then
    "Output meets all requirements and constraints. Excellent work!"
  else
    let critical := issues.filter (fun i => i.severity == "critical")
    let warnings := issues.filter (fun i => i.severity == "warning")
    let fb := "Iteration " ++ toString (iteration + 1) ++ " - Issues Found:\n\n"
    let fb := if critical ≠ [] then
        fb ++ "CRITICAL ISSUES (must fix):\n" ++ issueLines critical ++ "\n"
      else fb
    let fb := if warnings ≠ [] then
        fb ++ "WARNINGS (should fix):\n" ++ issueLines warnings ++ "\n"
      else fb
    fb ++ "Please address these issues in the next iteration."

/-- Scoring and result assembly: lines 103–124 of `review.py`, shared by every
exit path of `validate_output`. -/
def mkValidationResult (issues : List ValidationIssue) (constraints : List Constraint)
    (iteration : Nat) : ValidationResult :=
  if issues = [] then
    { perfect_match := true, issues := issues, score := 1,
      feedback := generate_feedback issues constraints iteration }
  else
    let critical_issues := (issues.filter (fun i => i.severity == "critical")).length
    let warning_issues := (issues.filter (fun i => i.severity == "warning")).length
    let penalty : ℚ := critical_issues * (3 / 10) + warning_issues * (1 / 10)
    { perfect_match := false, issues := issues, score := max 0 (1 - penalty),
      feedback := generate_feedback issues constraints iteration }

/-- The mechanical per-constraint pass of `validate_output` (lines 62–74). -/
def mechanicalIssues (constraints : List Constraint) (output : Option String) :
    List ValidationIssue :=
  constraints.filterMap (fun c =>
    let r := ConstraintParser.validate_constraint c output
    if r.1 = false then
      some { constraint := c.toStr, severity := "critical",
             description := r.2.getD "Constraint not met",
             suggestion := some ("Ensure output satisfies: " ++ c.toStr) }
    else Option.none)

/-- The `AgentTask` handed to the review agent (lines 80–94 of `review.py`). -/
def reviewTask (task_description : String) (output : Option String)
    (constraints : List Constraint) (iteration : Nat) : AgentTask :=
  { id := "review_" ++ toString iteration,
    description := build_review_prompt task_description output constraints,
    context := [("task_description", task_description), ("output", pyStr output),
                ("iteration", toString iteration)],
    constraints := constraints, iteration := iteration, feedback := Option.none }

/-- `ReviewSystem.validate_output`.  `review_agent` is the result of
`agent_registry.get_review_agent()` (`none` when no review agent is
registered). -/
def validate_output (review_agent : Option (AgentTask → AgentOutput))
    (output : Option String) (constraints : List Constraint)
    (task_description : String) (iteration : Nat) : Except PyExn ValidationResult :=
  let issues := mechanicalIssues constraints output
  match review_agent with
  | Option.none => Except.ok (mkValidationResult issues constraints iteration)
  | some ra =>
    let review_output := ra (reviewTask task_description output constraints iteration)
    if review_output.success then
      match review_output.output with
      | Option.none => Except.error PyExn.attributeError
      | some review_text =>
        Except.ok (mkValidationResult (issues ++ parse_review_output review_text)
          constraints iteration)
    else
      Except.ok (mkValidationResult issues constraints iteration)

end ReviewSystem

/-! ## Refinement loop (`refinement_loop.py`) -/

structure RefinementIteration where
  iteration : Nat
  output : Option String
  validation : ValidationResult
  agent_metadata : List (String × String)
deriving DecidableEq, Inhabited

structure RefinementResult where
  success : Bool
  final_output : Option String
  iterations : List RefinementIteration
  total_iterations : Nat
  final_score : ℚ
deriving DecidableEq, Inhabited

/-- The loop's mutable locals, plus the trace of externally observable calls
(each agent invocation, and each `(output, iteration)` handed to the
Validation Engine). -/
structure LoopSt where
  iterations : List RefinementIteration
  current_output : Option String
  current_feedback : Option String
  agentCalls : List AgentTask
  validationCalls : List (Option String × Nat)
deriving Inhabited

/-- The fixed cautionary note of the stall detection (line 188). -/
def stallNote : String :=
  "\n\nNOTE: Previous iteration had similar or better score. Please try a different approach."

namespace RefinementLoop

/-- The `AgentTask` built for iteration `i` (lines 104–112 of
`refinement_loop.py`). -/
def mkAgentTask (task_description : String) (constraints : List Constraint)
    (context : List (String × String)) (task_id : Option String) (i : Nat)
    (feedback : Option String) : AgentTask :=
  { id := (task_id.getD "task") ++ "_" ++ toString i,
    description := task_description, context := context,
    constraints := constraints, iteration := i, feedback := feedback }

/-- The `for iteration in range(self.max_iterations)` loop of
`refine_until_perfect`, as fuel recursion with `remaining = max_iterations - i`.
Audit-logger calls are fire-and-forget writes to a collaborator and are
dropped. -/
def refineAux (agent : AgentTask → AgentOutput)
    (review_agent : Option (AgentTask → AgentOutput))
    (task_description : String) (constraints : List Constraint)
    (context : List (String × String)) (task_id : Option String)
    (max_iterations : Nat) :
    Nat → Nat → LoopSt → Except PyExn RefinementResult × LoopSt
  | 0, _i, st =>
    (Except.ok { success := false, final_output := st.current_output,
                 iterations := st.iterations, total_iterations := max_iterations,
                 final_score := match st.iterations.getLast? with
                   | some r => r.validation.score
                   | Option.none => 0 }, st)
  | remaining + 1, i, st =>
    let agent_task : AgentTask :=
      mkAgentTask task_description constraints context task_id i st.current_feedback
    let st := { st with agentCalls := st.agentCalls ++ [agent_task] }
    let agent_output := agent agent_task
    if agent_output.success = false then
      (Except.ok { success := false, final_output := st.current_output,
                   iterations := st.iterations, total_iterations := i + 1,
                   final_score := 0 }, st)
    else
      let current_output := agent_output.output
      let st := { st with current_output := current_output,
                          validationCalls := st.validationCalls ++ [(current_output, i)] }
      match ReviewSystem.validate_output review_agent current_output constraints
          task_description i with
      | Except.error e => (Except.error e, st)
      | Except.ok validation =>
        let iteration_record : RefinementIteration :=
          { iteration := i, output := current_output, validation := validation,
            agent_metadata := agent_output.metadata }
        let st := { st with iterations := st.iterations ++ [iteration_record] }
        if validation.perfect_match then
          (Except.ok { success := true, final_output := current_output,
                       iterations := st.iterations, total_iterations := i + 1,
                       final_score := validation.score }, st)
        else
          let current_feedback := validation.feedback
          let current_feedback :=
            if i > 0 then
              if validation.score ≤ (st.iterations.getD (i - 1) default).validation.score then
                current_feedback ++ stallNote
              else current_feedback
            else current_feedback
          refineAux agent review_agent task_description constraints context task_id
            max_iterations remaining (i + 1) { st with current_feedback := some current_feedback }

/-- `RefinementLoop.refine_until_perfect` with budget `max_iterations`,
run with the given agent (the source's auto-selection merely picks which
agent function this is).  Also returns the final loop state, whose trace
fields record the externally observable calls. -/
def refine_until_perfect (agent : AgentTask → AgentOutput)
    (review_agent : Option (AgentTask → AgentOutput))
    (task_description : String) (constraints : List Constraint)
    (context : List (String × String)) (task_id : Option String)
    (max_iterations : Nat) : Except PyExn RefinementResult × LoopSt :=
  refineAux agent review_agent task_description constraints context task_id
    max_iterations max_iterations 0
    { iterations := [], current_output := Option.none, current_feedback := Option.none,
      agentCalls := [], validationCalls := [] }

/-- The feedback prepared at the end of a non-perfect iteration `k` (lines
180–188): the iteration's validation feedback, with the stall note appended
exactly when `k > 0` and iteration `k`'s score is at most iteration `k-1`'s
score, read off the iteration log `l`. -/
def nextFeedback (k : Nat) (l : List RefinementIteration) : String :=
  let v := (l.getD k default).validation
  if k > 0 then
    if v.score ≤ (l.getD (k - 1) default).validation.score then v.feedback ++ stallNote
    else v.feedback
  else v.feedback

end RefinementLoop

/-! ## Task decomposition (`task_manager.py`) -/

inductive AgentType where
  | coding | testing | documentation | review | general
deriving DecidableEq, Inhabited

inductive TaskStatus where
  | pending | in_progress | completed | failed | cancelled
deriving DecidableEq, Inhabited

structure Subtask where
  id : String
  description : String
  agent_type : AgentType
  status : TaskStatus := .pending
  output : Option String := Option.none
  dependencies : List String := []
  metadata : List (String × String) := []
deriving DecidableEq, Inhabited

def codingKeywords : List String := ["code", "implement", "refactor", "develop"]
def testingKeywords : List String := ["test", "testing", "unit test", "coverage"]
def docKeywords : List String := ["document", "documentation", "readme", "docs", "api doc"]

/-- The coding-keyword test of `_decompose_task` (line 140). -/
def hasCodingKw (d : String) : Bool :=
  codingKeywords.any (fun w => strContains (pyLower d) w)

/-- The testing-keyword test of `_decompose_task` (line 148). -/
def hasTestingKw (d : String) : Bool :=
  testingKeywords.any (fun w => strContains (pyLower d) w)

/-- The documentation-keyword test of `_decompose_task` (line 157). -/
def hasDocKw (d : String) : Bool :=
  docKeywords.any (fun w => strContains (pyLower d) w)

/-- `TaskManager._decompose_task`.  `uuid.uuid4()` is modelled by an id
supply indexed by the number of ids drawn so far within the call; theorems
quantify over the supply. -/
def decompose_task (ids : Nat → String) (description : String) : List Subtask :=
  let s0 : List Subtask := []
  let s1 :=
    if hasCodingKw description then
      s0 ++ [{ id := ids s0.length, description := "Implement: " ++ description,
               agent_type := .coding }]
    else s0
  let s2 :=
    if hasTestingKw description then
      s1 ++ [{ id := ids s1.length, description := "Create tests for: " ++ description,
               agent_type := .testing,
               dependencies := if s1 ≠ [] then [(s1.getD 0 default).id] else [] }]
    else s1
  let s3 :=
    if hasDocKw description then
      s2 ++ [{ id := ids s2.length, description := "Generate documentation for: " ++ description,
               agent_type := .documentation,
               dependencies := s2.map (fun st => st.id) }]
    else s2
  if s3 = [] then
    [{ id := ids 0, description := description, agent_type := .general }]
  else s3


/-! ## Fixed behaviours and values used by concrete runs -/

/-- Review agent behaviour that always reports one critical-vocabulary line. -/
def wReviewCritical : AgentTask → AgentOutput := fun t =>
  { task_id := t.id, success := true, output := some "error: xyz" }

/-- The single critical issue `_parse_review_output` extracts from
`wReviewCritical`'s text. -/
def wCritIssue : ValidationIssue :=
  { constraint := "Quality Review", severity := "critical", description := "error: xyz",
    suggestion := Option.none }

/-- Review agent behaviour that always fails to execute. -/
def wReviewFail : AgentTask → AgentOutput := fun t =>
  { task_id := t.id, success := false, output := Option.none,
    error := some "review agent failed" }

/-- The decomposition of a three-family description with a sequential id
supply, used as C8's witness. -/
def wDecompose : List Subtask :=
  decompose_task (fun n => toString n) "implement, test and document this"

/-- The perfect result `validate_output` returns when no issue is found. -/
def perfectValidationResult : ValidationResult :=
  { perfect_match := true, issues := [], score := 1,
    feedback := "Output meets all requirements and constraints. Excellent work!" }

/-! ## Facts about the Validation Engine -/

/-- Every mechanical per-constraint check passes, so the mechanical pass
contributes no issues. -/
theorem mechanicalIssues_eq_nil (constraints : List Constraint) (output : Option String) :
    ReviewSystem.mechanicalIssues constraints output = [] := by
  rw [ReviewSystem.mechanicalIssues, List.filterMap_eq_nil_iff]
  intro c _
  by_cases h : c.type = ConstraintType.test_coverage <;>
    simp [ConstraintParser.validate_constraint, h]

/-- Every `ok` result of `validate_output` is assembled by
`mkValidationResult` from some issue list. -/
theorem validate_output_shape (ra : Option (AgentTask → AgentOutput)) (out : Option String)
    (cs : List Constraint) (td : String) (it : Nat) (r : ValidationResult)
    (h : ReviewSystem.validate_output ra out cs td it = Except.ok r) :
    ∃ issues, r = ReviewSystem.mkValidationResult issues cs it := by
  cases ra with
  | none =>
    refine ⟨ReviewSystem.mechanicalIssues cs out, ?_⟩
    simp only [ReviewSystem.validate_output, Except.ok.injEq] at h
    exact h.symm
  | some f =>
    simp only [ReviewSystem.validate_output] at h
    by_cases hs : (f (ReviewSystem.reviewTask td out cs it)).success
    · cases ho : (f (ReviewSystem.reviewTask td out cs it)).output with
      | none => simp [hs, ho] at h
      | some t =>
        refine ⟨ReviewSystem.mechanicalIssues cs out ++ ReviewSystem.parse_review_output t, ?_⟩
        simp only [hs, ho, if_true, Except.ok.injEq] at h
        exact h.symm
    · refine ⟨ReviewSystem.mechanicalIssues cs out, ?_⟩
      simp only [Bool.not_eq_true] at hs
      simp only [hs, Bool.false_eq_true, if_false, Except.ok.injEq] at h
      exact h.symm

theorem mkValidationResult_issues (is : List ValidationIssue) (cs : List Constraint)
    (it : Nat) : (ReviewSystem.mkValidationResult is cs it).issues = is := by
  rw [ReviewSystem.mkValidationResult]
  split <;> rfl

theorem mkValidationResult_perfect_iff (is : List ValidationIssue) (cs : List Constraint)
    (it : Nat) :
    (ReviewSystem.mkValidationResult is cs it).perfect_match = true ↔ is = [] := by
  rw [ReviewSystem.mkValidationResult]
  split <;> simp_all

theorem mkValidationResult_score (is : List ValidationIssue) (cs : List Constraint)
    (it : Nat) :
    (ReviewSystem.mkValidationResult is cs it).score =
      if is = [] then 1
      else max 0 (1 - ((is.filter (fun i => i.severity == "critical")).length : ℚ) * (3 / 10)
        - ((is.filter (fun i => i.severity == "warning")).length : ℚ) * (1 / 10)) := by
  rw [ReviewSystem.mkValidationResult]
  split <;> rename_i h
  · rfl
  · dsimp only
    congr 1
    ring

/-- Claim C1: for every `ValidationResult` that `validate_output` produces,
`perfect_match` is true exactly when the issue list is empty. -/
theorem validate_output_perfect_match_iff_issues_nil
    (ra : Option (AgentTask → AgentOutput)) (out : Option String)
    (cs : List Constraint) (td : String) (it : Nat) (r : ValidationResult)
    (h : ReviewSystem.validate_output ra out cs td it = Except.ok r) :
    r.perfect_match = true ↔ r.issues = [] := by
  obtain ⟨is, rfl⟩ := validate_output_shape ra out cs td it r h
  rw [mkValidationResult_issues]
  exact mkValidationResult_perfect_iff is cs it

/-- Witness for C1 at a concrete run. -/
theorem validate_output_perfect_match_iff_issues_nil_witness :
    (perfectValidationResult.perfect_match = true ↔ perfectValidationResult.issues = []) :=
  validate_output_perfect_match_iff_issues_nil Option.none Option.none [] "" 0
    perfectValidationResult (by with_unfolding_all rfl)

theorem max_zero_sub_max_zero (x d : ℚ) (hd : 0 ≤ d) :
    max 0 (max 0 x - d) = max 0 (x - d) := by
  rcases le_total 0 x with hx | hx
  · rw [max_eq_right hx]
  · rw [max_eq_left hx]
    rw [max_eq_left (by linarith), max_eq_left (by linarith)]

/-- Claim C2 counterexample: a result with exactly one critical issue and no
warnings has score exactly `0.7`; a single critical issue does not cap the
score strictly below `0.7`. -/
theorem single_critical_score_not_below_counterexample :
    ∃ r, ReviewSystem.validate_output (some wReviewCritical) (some "x") [] "t" 0 =
        Except.ok r ∧
      (r.issues.filter (fun i => i.severity == "critical")).length = 1 ∧
      (r.issues.filter (fun i => i.severity == "warning")).length = 0 ∧
      r.score = 7 / 10 ∧ ¬ (r.score < 7 / 10) := by
  refine ⟨_, rfl, ?_, ?_, ?_, ?_⟩ <;> with_unfolding_all decide

/-- Claim C2 (amended): the scoring law of `validate_output`; one more
critical issue lowers the score by `0.3` floored at `0`, one more warning by
`0.1` floored at `0`, and any critical issue caps the score at `0.7`
(equality is reached with exactly one critical issue and no warnings). -/
theorem validate_output_score_law :
    (∀ (ra : Option (AgentTask → AgentOutput)) (out : Option String)
      (cs : List Constraint) (td : String) (it : Nat) (r : ValidationResult),
      ReviewSystem.validate_output ra out cs td it = Except.ok r →
      (r.issues = [] → r.score = 1) ∧
      (r.issues ≠ [] → r.score = max 0 (1 -
        ((r.issues.filter (fun i => i.severity == "critical")).length : ℚ) * (3 / 10) -
        ((r.issues.filter (fun i => i.severity == "warning")).length : ℚ) * (1 / 10))) ∧
      (1 ≤ (r.issues.filter (fun i => i.severity == "critical")).length →
        r.score ≤ 7 / 10)) ∧
    (∀ (is : List ValidationIssue) (cs : List Constraint) (it : Nat) (c : ValidationIssue),
      c.severity = "critical" →
      (ReviewSystem.mkValidationResult (is ++ [c]) cs it).score =
        max 0 ((ReviewSystem.mkValidationResult is cs it).score - 3 / 10)) ∧
    (∀ (is : List ValidationIssue) (cs : List Constraint) (it : Nat) (c : ValidationIssue),
      c.severity = "warning" →
      (ReviewSystem.mkValidationResult (is ++ [c]) cs it).score =
        max 0 ((ReviewSystem.mkValidationResult is cs it).score - 1 / 10)) := by
  refine ⟨?_, ?_, ?_⟩
  · intro ra out cs td it r h
    obtain ⟨is, rfl⟩ := validate_output_shape ra out cs td it r h
    rw [mkValidationResult_issues, mkValidationResult_score]
    refine ⟨fun h0 => by simp [h0], fun h0 => by simp [h0], fun h1 => ?_⟩
    have hne : is ≠ [] := by
      intro h0
      rw [h0] at h1
      simp at h1
    rw [if_neg hne]
    have hc : (1 : ℚ) ≤ ((is.filter (fun i => i.severity == "critical")).length : ℚ) := by
      exact_mod_cast h1
    have hw : (0 : ℚ) ≤ ((is.filter (fun i => i.severity == "warning")).length : ℚ) := by
      positivity
    apply max_le (by norm_num)
    nlinarith
  · intro is cs it c hc
    have hcw : (c.severity == "critical") = true := by rw [hc]; rfl
    have hww : (c.severity == "warning") = false := by rw [hc]; rfl
    rw [mkValidationResult_score, mkValidationResult_score]
    rcases eq_or_ne is [] with h0 | h0
    · subst h0
      simp [hcw, hww]
    · rw [if_neg (by simp), if_neg h0]
      rw [List.filter_append, List.filter_append]
      simp only [List.filter_cons, hcw, hww, List.filter_nil, if_true]
      rw [max_zero_sub_max_zero _ _ (by norm_num)]
      congr 1
      push_cast
      simp
      ring
  · intro is cs it c hc
    have hcw : (c.severity == "critical") = false := by rw [hc]; rfl
    have hww : (c.severity == "warning") = true := by rw [hc]; rfl
    rw [mkValidationResult_score, mkValidationResult_score]
    rcases eq_or_ne is [] with h0 | h0
    · subst h0
      simp [hcw, hww]
    · rw [if_neg (by simp), if_neg h0]
      rw [List.filter_append, List.filter_append]
      simp only [List.filter_cons, hcw, hww, List.filter_nil, if_true]
      rw [max_zero_sub_max_zero _ _ (by norm_num)]
      congr 1
      push_cast
      simp
      ring

/-- Witness for the amended C2 at concrete inputs. -/
theorem validate_output_score_law_witness :
    (((ReviewSystem.mkValidationResult [wCritIssue] [] 0).issues = [] →
        (ReviewSystem.mkValidationResult [wCritIssue] [] 0).score = 1) ∧
      ((ReviewSystem.mkValidationResult [wCritIssue] [] 0).issues ≠ [] →
        (ReviewSystem.mkValidationResult [wCritIssue] [] 0).score = max 0 (1 -
          (((ReviewSystem.mkValidationResult [wCritIssue] [] 0).issues.filter
            (fun i => i.severity == "critical")).length : ℚ) * (3 / 10) -
          (((ReviewSystem.mkValidationResult [wCritIssue] [] 0).issues.filter
            (fun i => i.severity == "warning")).length : ℚ) * (1 / 10))) ∧
      (1 ≤ ((ReviewSystem.mkValidationResult [wCritIssue] [] 0).issues.filter
          (fun i => i.severity == "critical")).length →
        (ReviewSystem.mkValidationResult [wCritIssue] [] 0).score ≤ 7 / 10)) ∧
    ((ReviewSystem.mkValidationResult ([] ++ [wCritIssue]) [] 0).score =
      max 0 ((ReviewSystem.mkValidationResult [] [] 0).score - 3 / 10)) :=
  ⟨validate_output_score_law.1 (some wReviewCritical) (some "x") [] "t" 0
      (ReviewSystem.mkValidationResult [wCritIssue] [] 0) (by with_unfolding_all rfl),
    validate_output_score_law.2.1 [] [] 0 wCritIssue rfl⟩

/-- Claim C9: each mechanical per-constraint check returns valid with no
error, so with no review agent — or a review agent whose execution fails —
`validate_output` returns a perfect result with score 1 and no issues. -/
theorem validate_constraint_vacuous_and_degenerate_perfect :
    (∀ (c : Constraint) (out : Option String),
      ConstraintParser.validate_constraint c out = (true, Option.none)) ∧
    (∀ (out : Option String) (cs : List Constraint) (td : String) (it : Nat),
      ReviewSystem.validate_output Option.none out cs td it =
        Except.ok perfectValidationResult) ∧
    (∀ (ra : AgentTask → AgentOutput) (out : Option String) (cs : List Constraint)
      (td : String) (it : Nat),
      (ra (ReviewSystem.reviewTask td out cs it)).success = false →
      ReviewSystem.validate_output (some ra) out cs td it =
        Except.ok perfectValidationResult) := by
  refine ⟨?_, ?_, ?_⟩
  · intro c out
    by_cases h : c.type = ConstraintType.test_coverage <;>
      simp [ConstraintParser.validate_constraint, h]
  · intro out cs td it
    simp only [ReviewSystem.validate_output, mechanicalIssues_eq_nil]
    rfl
  · intro ra out cs td it h
    simp only [ReviewSystem.validate_output, mechanicalIssues_eq_nil, h,
      Bool.false_eq_true, if_false]
    rfl

/-- Witness for C9 with a concretely failing review agent. -/
theorem validate_constraint_vacuous_witness :
    ReviewSystem.validate_output (some wReviewFail) (some "anything") [] "task" 2 =
      Except.ok perfectValidationResult :=
  validate_constraint_vacuous_and_degenerate_perfect.2.2 wReviewFail (some "anything")
    [] "task" 2 rfl

/-- Agent behaviour that always succeeds with a fixed output. -/
def wAgentOk : AgentTask → AgentOutput := fun t =>
  { task_id := t.id, success := true, output := some "out" }

/-- Review agent behaviour that always declares the output perfect. -/
def wReviewPerfect : AgentTask → AgentOutput := fun t =>
  { task_id := t.id, success := true,
    output := some "OUTPUT IS PERFECT - ALL CONSTRAINTS MET" }

/-- Agent behaviour that always fails. -/
def wAgentFail : AgentTask → AgentOutput := fun t =>
  { task_id := t.id, success := false, output := Option.none, error := some "boom" }

/-- The result of the concrete exhaustion run used as C4's witness: a
constantly succeeding agent against a reviewer that always reports one
critical line, with budget 3. -/
def wExhaustRes : RefinementResult :=
  match (RefinementLoop.refine_until_perfect wAgentOk (some wReviewCritical)
      "do things" [] [] Option.none 3).1 with
  | Except.ok r => r
  | Except.error _ => default

/-- The final loop state of the concrete stalled run (constantly succeeding
agent, reviewer always reporting one critical line, budget 3). -/
def wStallSt : LoopSt :=
  (RefinementLoop.refine_until_perfect wAgentOk (some wReviewCritical)
    "do things" [] [] Option.none 3).2

/-- The single, converged result of the first-call-perfect run used as C3's
witness. -/
def wConvRec : RefinementIteration :=
  { iteration := 0, output := some "out", validation := perfectValidationResult,
    agent_metadata := [] }

def wConvRes : RefinementResult :=
  { success := true, final_output := some "out", iterations := [wConvRec],
    total_iterations := 1, final_score := 1 }

/-! ## Facts about the Refinement Loop -/

/-- A string contains its own suffix. -/
theorem strContains_append_right (a b : String) : strContains (a ++ b) b = true := by
  rw [strContains, listContains, List.any_eq_true]
  refine ⟨b.data, ?_, ?_⟩
  · rw [List.mem_tails, String.data_append]
    exact List.suffix_append a.data b.data
  · rw [List.isPrefixOf_iff_prefix]

/-- `nextFeedback` only reads positions `k` and `k-1`, so it is unchanged by
appending further records. -/
theorem nextFeedback_append (k : Nat) (l l2 : List RefinementIteration)
    (h : k + 1 ≤ l.length) :
    RefinementLoop.nextFeedback k (l ++ l2) = RefinementLoop.nextFeedback k l := by
  unfold RefinementLoop.nextFeedback
  rw [List.getD_append l l2 default k (by omega),
    List.getD_append l l2 default (k - 1) (by omega)]

/-- `nextFeedback` at the last position of `l ++ [rec]` spelled out. -/
theorem nextFeedback_last (l : List RefinementIteration) (rec : RefinementIteration) :
    RefinementLoop.nextFeedback l.length (l ++ [rec]) =
      (if l.length > 0 then
        if rec.validation.score ≤
            ((l ++ [rec]).getD (l.length - 1) default).validation.score then
          rec.validation.feedback ++ stallNote
        else rec.validation.feedback
      else rec.validation.feedback) := by
  unfold RefinementLoop.nextFeedback
  rw [List.getD_append_right l [rec] default l.length (le_refl _)]
  simp

section LoopFacts

open RefinementLoop

variable (A : AgentTask → AgentOutput) (R : Option (AgentTask → AgentOutput))
  (td : String) (cs : List Constraint) (ctx : List (String × String))
  (tid : Option String) (m : Nat)

/-- The final trace of agent calls extends the starting one. -/
theorem refineAux_agentCalls_extend (remaining : Nat) :
    ∀ (i : Nat) (st : LoopSt), ∃ l,
      ((refineAux A R td cs ctx tid m remaining i st).2).agentCalls =
        st.agentCalls ++ l := by
  induction remaining with
  | zero => exact fun i st => ⟨[], by simp [refineAux]⟩
  | succ n ih =>
    intro i st
    simp only [refineAux]
    split
    · exact ⟨[mkAgentTask td cs ctx tid i st.current_feedback], rfl⟩
    · split
      · exact ⟨[mkAgentTask td cs ctx tid i st.current_feedback], rfl⟩
      · split
        · exact ⟨[mkAgentTask td cs ctx tid i st.current_feedback], rfl⟩
        · obtain ⟨l, hl⟩ := ih (i + 1) _
          exact ⟨[mkAgentTask td cs ctx tid i st.current_feedback] ++ l,
            by rw [hl]; simp⟩

/-- The final iteration log extends the starting one. -/
theorem refineAux_iterations_extend (remaining : Nat) :
    ∀ (i : Nat) (st : LoopSt),
      st.iterations <+: ((refineAux A R td cs ctx tid m remaining i st).2).iterations := by
  induction remaining with
  | zero => exact fun i st => by simp [refineAux]
  | succ n ih =>
    intro i st
    simp only [refineAux]
    by_cases hfail : (A (mkAgentTask td cs ctx tid i st.current_feedback)).success = false
    · rw [if_pos hfail]
    · rw [if_neg hfail]
      generalize ReviewSystem.validate_output R
          ((A (mkAgentTask td cs ctx tid i st.current_feedback)).output) cs td i = vres
      cases vres with
      | error e =>
        dsimp only
        exact List.prefix_refl _
      | ok validation =>
        dsimp only
        by_cases hp : validation.perfect_match = true
        · rw [if_pos hp]
          exact ⟨_, rfl⟩
        · rw [if_neg hp]
          refine List.IsPrefix.trans ?_ (ih (i + 1) _)
          exact ⟨_, rfl⟩

/-- At most `remaining` further agent invocations happen. -/
theorem refineAux_agentCalls_length_le (remaining : Nat) :
    ∀ (i : Nat) (st : LoopSt),
      ((refineAux A R td cs ctx tid m remaining i st).2).agentCalls.length ≤
        st.agentCalls.length + remaining := by
  induction remaining with
  | zero => intro i st; simp [refineAux]
  | succ n ih =>
    intro i st
    simp only [refineAux]
    split
    · simp
    · split
      · simp
      · split
        · simp
        · refine le_trans (ih (i + 1) _) ?_
          simp
          omega

/-- A successful result is a convergence: it is returned from an iteration
whose validation is a perfect match, and it carries that iteration's output,
score and index. -/
theorem refineAux_ok_success (remaining : Nat) :
    ∀ (i : Nat) (st : LoopSt) (res : RefinementResult),
      (refineAux A R td cs ctx tid m remaining i st).1 = Except.ok res →
      res.success = true →
      ∃ rec, res.iterations.getLast? = some rec ∧
        rec.validation.perfect_match = true ∧
        res.total_iterations = rec.iteration + 1 ∧
        res.final_output = rec.output ∧
        res.final_score = rec.validation.score ∧
        res.iterations = ((refineAux A R td cs ctx tid m remaining i st).2).iterations := by
  induction remaining with
  | zero =>
    intro i st res h hs
    simp only [refineAux, Except.ok.injEq] at h
    rw [← h] at hs
    simp at hs
  | succ n ih =>
    intro i st res h hs
    simp only [refineAux] at h ⊢
    by_cases hfail : (A (mkAgentTask td cs ctx tid i st.current_feedback)).success = false
    · rw [if_pos hfail] at h
      simp only [Except.ok.injEq] at h
      rw [← h] at hs
      simp at hs
    · rw [if_neg hfail] at h ⊢
      generalize hv : ReviewSystem.validate_output R
          ((A (mkAgentTask td cs ctx tid i st.current_feedback)).output) cs td i = vres at h ⊢
      cases vres with
      | error e =>
        dsimp only at h
        exact absurd h (by simp)
      | ok validation =>
        dsimp only at h ⊢
        by_cases hp : validation.perfect_match = true
        · rw [if_pos hp] at h ⊢
          simp only [Except.ok.injEq] at h
          subst h
          exact ⟨_, List.getLast?_concat _, hp, rfl, rfl, rfl, rfl⟩
        · rw [if_neg hp] at h ⊢
          exact ih (i + 1) _ res h hs

/-- If the run returns `ok` and every agent call in its trace succeeded and
no recorded validation was perfect, the run is an exhaustion: `success=false`,
`total_iterations = max_iterations`, one record per remaining iteration, and
the final score/output are those of the last record. -/
theorem refineAux_exhaust (remaining : Nat) :
    ∀ (i : Nat) (st : LoopSt) (res : RefinementResult),
      (refineAux A R td cs ctx tid m remaining i st).1 = Except.ok res →
      (∀ t ∈ ((refineAux A R td cs ctx tid m remaining i st).2).agentCalls,
        (A t).success = true) →
      (∀ rec ∈ res.iterations, rec.validation.perfect_match = false) →
      ((match st.iterations.getLast? with
        | some rec => rec.output
        | Option.none => st.current_output) = st.current_output) →
      res.success = false ∧ res.total_iterations = m ∧
      res.iterations.length = st.iterations.length + remaining ∧
      res.final_score = (match res.iterations.getLast? with
        | some rec => rec.validation.score
        | Option.none => 0) ∧
      res.final_output = (match res.iterations.getLast? with
        | some rec => rec.output
        | Option.none => st.current_output) := by
  induction remaining with
  | zero =>
    intro i st res h _hsuc _hnp hco
    simp only [refineAux, Except.ok.injEq] at h
    subst h
    exact ⟨rfl, rfl, by simp, rfl, hco.symm⟩
  | succ n ih =>
    intro i st res h hsuc hnp hco
    simp only [refineAux] at h hsuc
    by_cases hfail : (A (mkAgentTask td cs ctx tid i st.current_feedback)).success = false
    · rw [if_pos hfail] at h hsuc
      exact absurd (hsuc _ (List.mem_append_right _ (List.mem_singleton.mpr rfl)))
        (by simp [hfail])
    · rw [if_neg hfail] at h hsuc
      generalize hv : ReviewSystem.validate_output R
          ((A (mkAgentTask td cs ctx tid i st.current_feedback)).output) cs td i = vres at h hsuc
      cases vres with
      | error e =>
        dsimp only at h
        exact absurd h (by simp)
      | ok validation =>
        dsimp only at h hsuc
        by_cases hp : validation.perfect_match = true
        · rw [if_pos hp] at h
          simp only [Except.ok.injEq] at h
          subst h
          exact absurd (hnp _ (List.mem_append_right _ (List.mem_singleton.mpr rfl)))
            (by simp [hp])
        · rw [if_neg hp] at h hsuc
          have := ih (i + 1) _ res h hsuc hnp (by simp [List.getLast?_concat])
          refine ⟨this.1, this.2.1, ?_, this.2.2.2.1, ?_⟩
          · rw [this.2.2.1]
            simp
            omega
          · have hne : res.iterations ≠ [] := by
              have hlen := this.2.2.1
              intro h0
              rw [h0] at hlen
              simp only [List.length_append, List.length_cons, List.length_nil] at hlen
              omega
            obtain ⟨rec, hrec⟩ : ∃ rec, res.iterations.getLast? = some rec := by
              cases hgl : res.iterations.getLast? with
              | none => exact absurd (List.getLast?_eq_none_iff.mp hgl) hne
              | some rec => exact ⟨rec, rfl⟩
            rw [this.2.2.2.2, hrec]

/-- If some agent call in the trace failed, the loop returned immediately at
that call: an `ok` result with `success=false` and `final_score=0`, the
failing call is the last of the trace, its iteration index equals the number
of records kept, and no validation was performed at that iteration. -/
theorem refineAux_fail (remaining : Nat) :
    ∀ (i : Nat) (st : LoopSt),
      (∀ t ∈ st.agentCalls, (A t).success = true) →
      (∀ v ∈ st.validationCalls, v.2 < i) →
      (∀ rec ∈ st.iterations, rec.iteration < i) →
      st.iterations.length = i →
      st.agentCalls.length = i →
      ∀ t ∈ ((refineAux A R td cs ctx tid m remaining i st).2).agentCalls,
        (A t).success = false →
      ∃ res, (refineAux A R td cs ctx tid m remaining i st).1 = Except.ok res ∧
        res.success = false ∧ res.final_score = 0 ∧
        res.total_iterations = t.iteration + 1 ∧
        res.iterations.length = t.iteration ∧
        (∀ rec ∈ res.iterations, rec.iteration < t.iteration) ∧
        (∀ v ∈ ((refineAux A R td cs ctx tid m remaining i st).2).validationCalls,
          v.2 < t.iteration) ∧
        ((refineAux A R td cs ctx tid m remaining i st).2).agentCalls.getLast? = some t := by
  induction remaining with
  | zero =>
    intro i st hc _hv _hr _hli _hla t ht hf
    simp only [refineAux] at ht
    exact absurd (hc t ht) (by simp [hf])
  | succ n ih =>
    intro i st hc hv hr hli hla t ht hf
    simp only [refineAux] at ht ⊢
    by_cases hfail : (A (mkAgentTask td cs ctx tid i st.current_feedback)).success = false
    · rw [if_pos hfail] at ht ⊢
      rcases List.mem_append.mp ht with hold | hnew
      · exact absurd (hc t hold) (by simp [hf])
      · have ht' : t = mkAgentTask td cs ctx tid i st.current_feedback :=
          List.mem_singleton.mp hnew
        subst ht'
        refine ⟨_, rfl, rfl, rfl, rfl, ?_, ?_, ?_, ?_⟩
        · exact hli
        · exact fun rec hrec => hli ▸ hr rec hrec
        · exact fun v hvv => hli ▸ hv v hvv
        · exact List.getLast?_concat _
    · rw [if_neg hfail] at ht ⊢
      have hsucc' : (A (mkAgentTask td cs ctx tid i st.current_feedback)).success = true := by
        revert hfail
        cases (A (mkAgentTask td cs ctx tid i st.current_feedback)).success <;> simp
      generalize hveq : ReviewSystem.validate_output R
          ((A (mkAgentTask td cs ctx tid i st.current_feedback)).output) cs td i = vres at ht ⊢
      cases vres with
      | error e =>
        dsimp only at ht ⊢
        rcases List.mem_append.mp ht with hold | hnew
        · exact absurd (hc t hold) (by simp [hf])
        · have ht' : t = mkAgentTask td cs ctx tid i st.current_feedback :=
            List.mem_singleton.mp hnew
          rw [ht'] at hf
          exact absurd hsucc' (by simp [hf])
      | ok validation =>
        dsimp only at ht ⊢
        by_cases hp : validation.perfect_match = true
        · rw [if_pos hp] at ht ⊢
          rcases List.mem_append.mp ht with hold | hnew
          · exact absurd (hc t hold) (by simp [hf])
          · have ht' : t = mkAgentTask td cs ctx tid i st.current_feedback :=
              List.mem_singleton.mp hnew
            rw [ht'] at hf
            exact absurd hsucc' (by simp [hf])
        · rw [if_neg hp] at ht ⊢
          refine ih (i + 1) _ ?_ ?_ ?_ ?_ ?_ t ht hf
          · intro u hu
            rcases List.mem_append.mp hu with hold | hnew
            · exact hc u hold
            · rw [List.mem_singleton.mp hnew]
              exact hsucc'
          · intro v hvv
            rcases List.mem_append.mp hvv with hold | hnew
            · exact Nat.lt_succ_of_lt (hv v hold)
            · rw [List.mem_singleton.mp hnew]
              exact Nat.lt_succ_self i
          · intro rec hrec
            rcases List.mem_append.mp hrec with hold | hnew
            · exact Nat.lt_succ_of_lt (hr rec hold)
            · rw [List.mem_singleton.mp hnew]
              exact Nat.lt_succ_self i
          · simp [hli]
          · simp [hla]

/-- Every recorded iteration's validation is exactly what the Validation
Engine returned for that iteration's output and index. -/
theorem refineAux_records_valid (remaining : Nat) :
    ∀ (i : Nat) (st : LoopSt),
      (∀ rec ∈ st.iterations,
        ReviewSystem.validate_output R rec.output cs td rec.iteration =
          Except.ok rec.validation) →
      ∀ rec ∈ ((refineAux A R td cs ctx tid m remaining i st).2).iterations,
        ReviewSystem.validate_output R rec.output cs td rec.iteration =
          Except.ok rec.validation := by
  induction remaining with
  | zero =>
    intro i st hpre rec hrec
    simp only [refineAux] at hrec
    exact hpre rec hrec
  | succ n ih =>
    intro i st hpre rec hrec
    simp only [refineAux] at hrec
    by_cases hfail : (A (mkAgentTask td cs ctx tid i st.current_feedback)).success = false
    · rw [if_pos hfail] at hrec
      exact hpre rec hrec
    · rw [if_neg hfail] at hrec
      generalize hv : ReviewSystem.validate_output R
          ((A (mkAgentTask td cs ctx tid i st.current_feedback)).output) cs td i = vres at hrec
      cases vres with
      | error e =>
        dsimp only at hrec
        exact hpre rec hrec
      | ok validation =>
        dsimp only at hrec
        by_cases hp : validation.perfect_match = true
        · rw [if_pos hp] at hrec
          rcases List.mem_append.mp hrec with hold | hnew
          · exact hpre rec hold
          · rw [List.mem_singleton.mp hnew]
            exact hv
        · rw [if_neg hp] at hrec
          refine ih (i + 1) _ ?_ rec hrec
          intro r hr
          rcases List.mem_append.mp hr with hold | hnew
          · exact hpre r hold
          · rw [List.mem_singleton.mp hnew]
            exact hv

/-- The feedback carried by the agent call of iteration `k + 1` is
`nextFeedback k` of the final iteration log. -/
theorem refineAux_feedback (remaining : Nat) :
    ∀ (i : Nat) (st : LoopSt),
      st.iterations.length = i →
      (∀ t ∈ st.agentCalls, ∀ k, t.iteration = k + 1 →
        k + 1 ≤ st.iterations.length ∧
        t.feedback = some (RefinementLoop.nextFeedback k st.iterations)) →
      (∀ k, i = k + 1 →
        st.current_feedback = some (RefinementLoop.nextFeedback k st.iterations)) →
      ∀ t ∈ ((refineAux A R td cs ctx tid m remaining i st).2).agentCalls,
        ∀ k, t.iteration = k + 1 →
          k + 1 ≤ ((refineAux A R td cs ctx tid m remaining i st).2).iterations.length ∧
          t.feedback = some (RefinementLoop.nextFeedback k
            ((refineAux A R td cs ctx tid m remaining i st).2).iterations) := by
  induction remaining with
  | zero =>
    intro i st _ hprev _ t ht k hk
    simp only [refineAux] at ht ⊢
    exact hprev t ht k hk
  | succ n ih =>
    intro i st hlen hprev hcf t ht k hk
    subst hlen
    simp only [refineAux] at ht ⊢
    by_cases hfail : (A (mkAgentTask td cs ctx tid st.iterations.length
        st.current_feedback)).success = false
    · rw [if_pos hfail] at ht ⊢
      rcases List.mem_append.mp ht with hold | hnew
      · exact hprev t hold k hk
      · rw [List.mem_singleton.mp hnew] at hk ⊢
        have hik : st.iterations.length = k + 1 := hk
        exact ⟨le_of_eq hik.symm, hcf k hik⟩
    · rw [if_neg hfail] at ht ⊢
      generalize hv : ReviewSystem.validate_output R
          ((A (mkAgentTask td cs ctx tid st.iterations.length
            st.current_feedback)).output) cs td st.iterations.length = vres at ht ⊢
      cases vres with
      | error e =>
        dsimp only at ht ⊢
        rcases List.mem_append.mp ht with hold | hnew
        · exact hprev t hold k hk
        · rw [List.mem_singleton.mp hnew] at hk ⊢
          have hik : st.iterations.length = k + 1 := hk
          exact ⟨le_of_eq hik.symm, hcf k hik⟩
      | ok validation =>
        dsimp only at ht ⊢
        by_cases hp : validation.perfect_match = true
        · rw [if_pos hp] at ht ⊢
          rcases List.mem_append.mp ht with hold | hnew
          · obtain ⟨h1, h2⟩ := hprev t hold k hk
            refine ⟨by simp; omega, ?_⟩
            rw [nextFeedback_append k st.iterations _ h1]
            exact h2
          · rw [List.mem_singleton.mp hnew] at hk ⊢
            have hik : st.iterations.length = k + 1 := hk
            refine ⟨by simp; omega, ?_⟩
            rw [nextFeedback_append k st.iterations _ (le_of_eq hik.symm)]
            exact hcf k hik
        · rw [if_neg hp] at ht ⊢
          refine ih (st.iterations.length + 1) _ (by simp) ?_ ?_ t ht k hk
          · intro u hu k' hk'
            rcases List.mem_append.mp hu with hold | hnew
            · obtain ⟨h1, h2⟩ := hprev u hold k' hk'
              refine ⟨by simp; omega, ?_⟩
              rw [nextFeedback_append k' st.iterations _ h1]
              exact h2
            · rw [List.mem_singleton.mp hnew] at hk' ⊢
              have hik : st.iterations.length = k' + 1 := hk'
              refine ⟨by simp; omega, ?_⟩
              rw [nextFeedback_append k' st.iterations _ (le_of_eq hik.symm)]
              exact hcf k' hik
          · intro k' hk'
            have hk'' : k' = st.iterations.length := by omega
            subst hk''
            show some _ = some _
            congr 1
            rw [nextFeedback_last st.iterations]

end LoopFacts

/-! ## Claims about the Refinement Loop -/

/-- Claim C3: for every budget `N` and all agent/reviewer behaviours, the loop
makes at most `N` agent invocations, and a successful result is returned only
from an iteration whose validation is a perfect match, carrying that
iteration's output, score and `total_iterations = i + 1`. -/
theorem refine_bounded_and_converged_only_on_perfect
    (A : AgentTask → AgentOutput) (R : Option (AgentTask → AgentOutput))
    (td : String) (cs : List Constraint) (ctx : List (String × String))
    (tid : Option String) (N : Nat) :
    ((RefinementLoop.refine_until_perfect A R td cs ctx tid N).2).agentCalls.length ≤ N ∧
    (∀ res, (RefinementLoop.refine_until_perfect A R td cs ctx tid N).1 = Except.ok res →
      res.success = true →
      ∃ rec,
        res.iterations.getLast? = some rec ∧
        rec.validation.perfect_match = true ∧
        res.total_iterations = rec.iteration + 1 ∧
        res.final_output = rec.output ∧
        res.final_score = rec.validation.score ∧
        res.iterations =
          ((RefinementLoop.refine_until_perfect A R td cs ctx tid N).2).iterations) := by
  constructor
  · have h := refineAux_agentCalls_length_le A R td cs ctx tid N N 0
      { iterations := [], current_output := Option.none, current_feedback := Option.none,
        agentCalls := [], validationCalls := [] }
    simpa [RefinementLoop.refine_until_perfect] using h
  · intro res h hs
    exact refineAux_ok_success A R td cs ctx tid N N 0 _ res h hs

/-- Witness for C3: a first-call-perfect run converges with one iteration. -/
theorem refine_bounded_and_converged_witness :
    ∃ rec,
      wConvRes.iterations.getLast? = some rec ∧
      rec.validation.perfect_match = true ∧
      wConvRes.total_iterations = rec.iteration + 1 ∧
      wConvRes.final_output = rec.output ∧
      wConvRes.final_score = rec.validation.score ∧
      wConvRes.iterations =
        ((RefinementLoop.refine_until_perfect wAgentOk (some wReviewPerfect)
          "do things" [] [] Option.none 3).2).iterations :=
  (refine_bounded_and_converged_only_on_perfect wAgentOk (some wReviewPerfect)
    "do things" [] [] Option.none 3).2 wConvRes
    (by with_unfolding_all rfl) rfl

/-- Claim C10: with `max_iterations = 0` the loop invokes no agent and
returns an immediate exhaustion: `success=false`, no output, empty log,
`total_iterations=0`, `final_score=0`. -/
theorem refine_zero_budget
    (A : AgentTask → AgentOutput) (R : Option (AgentTask → AgentOutput))
    (td : String) (cs : List Constraint) (ctx : List (String × String))
    (tid : Option String) :
    (RefinementLoop.refine_until_perfect A R td cs ctx tid 0).1 =
      Except.ok { success := false, final_output := Option.none, iterations := [], total_iterations := 0, final_score := 0 } ∧
    ((RefinementLoop.refine_until_perfect A R td cs ctx tid 0).2).agentCalls = [] := by
  exact ⟨rfl, rfl⟩

/-- Claim C4: an `ok` run in which every agent call succeeded and no
validation was perfect is an exhaustion: `success=false`,
`total_iterations = N`, exactly `N` records, and final score/output are the
last record's (score `0`, output `None`, when no iteration ran). -/
theorem refine_exhaustion
    (A : AgentTask → AgentOutput) (R : Option (AgentTask → AgentOutput))
    (td : String) (cs : List Constraint) (ctx : List (String × String))
    (tid : Option String) (N : Nat) (res : RefinementResult)
    (hok : (RefinementLoop.refine_until_perfect A R td cs ctx tid N).1 = Except.ok res)
    (hsuc : ∀ t ∈ ((RefinementLoop.refine_until_perfect A R td cs ctx tid N).2).agentCalls,
      (A t).success = true)
    (hnp : ∀ rec ∈ res.iterations, rec.validation.perfect_match = false) :
    res.success = false ∧ res.total_iterations = N ∧ res.iterations.length = N ∧
    res.final_score = (match res.iterations.getLast? with
      | some rec => rec.validation.score
      | Option.none => 0) ∧
    res.final_output = (match res.iterations.getLast? with
      | some rec => rec.output
      | Option.none => Option.none) := by
  have h := refineAux_exhaust A R td cs ctx tid N N 0
    { iterations := [], current_output := Option.none, current_feedback := Option.none,
      agentCalls := [], validationCalls := [] } res hok hsuc hnp rfl
  exact ⟨h.1, h.2.1, by simpa using h.2.2.1, h.2.2.2.1, h.2.2.2.2⟩

/-- Witness for C4: the concrete three-iteration stalled run exhausts with
`total_iterations = 3` and the third iteration's score. -/
theorem refine_exhaustion_witness :
    wExhaustRes.success = false ∧ wExhaustRes.total_iterations = 3 ∧
    wExhaustRes.iterations.length = 3 ∧
    wExhaustRes.final_score = (match wExhaustRes.iterations.getLast? with
      | some rec => rec.validation.score
      | Option.none => 0) ∧
    wExhaustRes.final_output = (match wExhaustRes.iterations.getLast? with
      | some rec => rec.output
      | Option.none => Option.none) :=
  refine_exhaustion wAgentOk (some wReviewCritical) "do things" [] [] Option.none 3
    wExhaustRes (by with_unfolding_all rfl)
    (fun t _ => rfl) (by with_unfolding_all decide)

/-- Claim C5: if the agent's output at some call has `success=false`, the loop
returns immediately: an `ok` result with `success=false`, `final_score=0`, the
log accumulated before that iteration, and the failed output is validated
neither then nor later (no validation call carries that iteration index, and
no record of it exists). -/
theorem refine_agent_failure_aborts
    (A : AgentTask → AgentOutput) (R : Option (AgentTask → AgentOutput))
    (td : String) (cs : List Constraint) (ctx : List (String × String))
    (tid : Option String) (N : Nat) (t : AgentTask)
    (ht : t ∈ ((RefinementLoop.refine_until_perfect A R td cs ctx tid N).2).agentCalls)
    (hf : (A t).success = false) :
    ∃ res, (RefinementLoop.refine_until_perfect A R td cs ctx tid N).1 = Except.ok res ∧
      res.success = false ∧ res.final_score = 0 ∧
      res.total_iterations = t.iteration + 1 ∧
      res.iterations.length = t.iteration ∧
      (∀ rec ∈ res.iterations, rec.iteration < t.iteration) ∧
      (∀ v ∈ ((RefinementLoop.refine_until_perfect A R td cs ctx tid N).2).validationCalls,
        v.2 < t.iteration) ∧
      ((RefinementLoop.refine_until_perfect A R td cs ctx tid N).2).agentCalls.getLast? =
        some t := by
  exact refineAux_fail A R td cs ctx tid N N 0
    { iterations := [], current_output := Option.none, current_feedback := Option.none,
      agentCalls := [], validationCalls := [] }
    (by simp) (by simp) (by simp) rfl rfl t ht hf

/-- Witness for C5: a first-call agent failure aborts the run at once. -/
theorem refine_agent_failure_aborts_witness :
    ∃ res, (RefinementLoop.refine_until_perfect wAgentFail (some wReviewCritical)
        "do things" [] [] Option.none 3).1 = Except.ok res ∧
      res.success = false ∧ res.final_score = 0 ∧
      res.total_iterations = (RefinementLoop.mkAgentTask "do things" [] [] Option.none 0
        Option.none).iteration + 1 ∧
      res.iterations.length = (RefinementLoop.mkAgentTask "do things" [] [] Option.none 0
        Option.none).iteration ∧
      (∀ rec ∈ res.iterations, rec.iteration < (RefinementLoop.mkAgentTask "do things" [] []
        Option.none 0 Option.none).iteration) ∧
      (∀ v ∈ ((RefinementLoop.refine_until_perfect wAgentFail (some wReviewCritical)
          "do things" [] [] Option.none 3).2).validationCalls,
        v.2 < (RefinementLoop.mkAgentTask "do things" [] [] Option.none 0
          Option.none).iteration) ∧
      ((RefinementLoop.refine_until_perfect wAgentFail (some wReviewCritical)
          "do things" [] [] Option.none 3).2).agentCalls.getLast? =
        some (RefinementLoop.mkAgentTask "do things" [] [] Option.none 0 Option.none) :=
  refine_agent_failure_aborts wAgentFail (some wReviewCritical) "do things" [] []
    Option.none 3 (RefinementLoop.mkAgentTask "do things" [] [] Option.none 0 Option.none)
    (by with_unfolding_all decide) rfl

/-- Claim C6: the feedback passed into iteration `k+1`'s agent invocation is
iteration `k`'s validation feedback with the fixed cautionary stall note
appended exactly when `k > 0` and iteration `k`'s score is at most iteration
`k-1`'s score; every recorded validation (hence every recorded score) is
exactly what the Validation Engine produced, so the note changes only the
feedback text; and when the base feedback does not itself contain the note,
the note occurs in the prepared feedback iff the run stalled. -/
theorem refine_stall_note_iff
    (A : AgentTask → AgentOutput) (R : Option (AgentTask → AgentOutput))
    (td : String) (cs : List Constraint) (ctx : List (String × String))
    (tid : Option String) (N : Nat) :
    (∀ t ∈ ((RefinementLoop.refine_until_perfect A R td cs ctx tid N).2).agentCalls,
      ∀ k, t.iteration = k + 1 →
        k + 1 ≤ ((RefinementLoop.refine_until_perfect A R td cs ctx tid N).2).iterations.length ∧
        t.feedback = some (RefinementLoop.nextFeedback k
          ((RefinementLoop.refine_until_perfect A R td cs ctx tid N).2).iterations)) ∧
    (∀ rec ∈ ((RefinementLoop.refine_until_perfect A R td cs ctx tid N).2).iterations,
      ReviewSystem.validate_output R rec.output cs td rec.iteration =
        Except.ok rec.validation) ∧
    (∀ (k : Nat) (l : List RefinementIteration),
      strContains ((l.getD k default).validation.feedback) stallNote = false →
      (strContains (RefinementLoop.nextFeedback k l) stallNote = true ↔
        (0 < k ∧ (l.getD k default).validation.score ≤
          (l.getD (k - 1) default).validation.score))) := by
  refine ⟨?_, ?_, ?_⟩
  · intro t ht k hk
    exact refineAux_feedback A R td cs ctx tid N N 0
      { iterations := [], current_output := Option.none, current_feedback := Option.none,
        agentCalls := [], validationCalls := [] }
      rfl (by simp) (fun k hk => absurd hk (by omega)) t ht k hk
  · intro rec hrec
    exact refineAux_records_valid A R td cs ctx tid N N 0
      { iterations := [], current_output := Option.none, current_feedback := Option.none,
        agentCalls := [], validationCalls := [] }
      (by simp) rec hrec
  · intro k l hbase
    unfold RefinementLoop.nextFeedback
    by_cases hk : k > 0
    · rw [if_pos hk]
      by_cases hs : (l.getD k default).validation.score ≤
          (l.getD (k - 1) default).validation.score
      · rw [if_pos hs]
        exact ⟨fun _ => ⟨hk, hs⟩, fun _ => strContains_append_right _ _⟩
      · rw [if_neg hs]
        constructor
        · intro hcon
          rw [hbase] at hcon
          cases hcon
        · intro hrhs
          exact absurd hrhs.2 hs
    · rw [if_neg hk]
      constructor
      · intro hcon
        rw [hbase] at hcon
        cases hcon
      · intro hrhs
        exact absurd hrhs.1 hk

/-- Witness for C6: in the concrete stalled run, the third agent call
(iteration 2) carries exactly the second iteration's feedback with the stall
note, and the containment equivalence holds there. -/
theorem refine_stall_note_witness :
    (2 ≤ wStallSt.iterations.length ∧
      (wStallSt.agentCalls.getD 2 default).feedback =
        some (RefinementLoop.nextFeedback 1 wStallSt.iterations)) ∧
    (strContains (RefinementLoop.nextFeedback 1 wStallSt.iterations) stallNote = true ↔
      (0 < 1 ∧ (wStallSt.iterations.getD 1 default).validation.score ≤
        (wStallSt.iterations.getD 0 default).validation.score)) :=
  ⟨(refine_stall_note_iff wAgentOk (some wReviewCritical) "do things" [] []
      Option.none 3).1 (wStallSt.agentCalls.getD 2 default)
      (by with_unfolding_all decide) 1 (by with_unfolding_all decide),
    (refine_stall_note_iff wAgentOk (some wReviewCritical) "do things" [] []
      Option.none 3).2.2 1 wStallSt.iterations (by with_unfolding_all decide)⟩

/-! ## Claims about task decomposition -/

/-- Claim C8: every subtask's dependencies reference only ids of subtasks
strictly earlier in the returned list (hence the dependency graph is acyclic);
the testing subtask depends on the coding subtask exactly when one was
emitted; the documentation subtask depends on every previously emitted
subtask; and with no keyword match the result is exactly one general-purpose
subtask with no dependencies. -/
theorem decompose_dependencies_strictly_earlier (ids : Nat → String) (d : String) :
    (∀ (pre : List Subtask) (st : Subtask) (post : List Subtask),
      decompose_task ids d = pre ++ st :: post →
      ∀ dep ∈ st.dependencies, dep ∈ pre.map Subtask.id) ∧
    (∀ st ∈ decompose_task ids d, st.agent_type = AgentType.testing →
      st.dependencies = (if hasCodingKw d then [ids 0] else [])) ∧
    (∀ st ∈ decompose_task ids d, st.agent_type = AgentType.documentation →
      st.dependencies = ((decompose_task ids d).dropLast).map Subtask.id) ∧
    (hasCodingKw d = false → hasTestingKw d = false → hasDocKw d = false →
      decompose_task ids d =
        [{ id := ids 0, description := d, agent_type := AgentType.general }]) := by
  cases hc : hasCodingKw d <;> cases ht : hasTestingKw d <;> cases hd : hasDocKw d
  · have hl : decompose_task ids d =
        [{ id := ids 0, description := d, agent_type := AgentType.general }] := by
      simp [decompose_task, hc, ht, hd]
    rw [hl]
    refine ⟨?_, ?_, ?_, ?_⟩
    · intro pre st post heq dep hdep
      replace heq := heq.symm
      rcases pre with _ | ⟨a, pre⟩ <;> simp_all
    · intro st hst hty
      fin_cases hst <;> simp_all
    · intro st hst hty
      fin_cases hst <;> simp_all
    · intro _ _ _
      rfl
  · have hl : decompose_task ids d =
        [{ id := ids 0, description := "Generate documentation for: " ++ d,
           agent_type := AgentType.documentation, dependencies := [] }] := by
      simp [decompose_task, hc, ht, hd]
    rw [hl]
    refine ⟨?_, ?_, ?_, ?_⟩
    · intro pre st post heq dep hdep
      replace heq := heq.symm
      rcases pre with _ | ⟨a, pre⟩ <;> simp_all
    · intro st hst hty
      fin_cases hst <;> simp_all
    · intro st hst hty
      fin_cases hst <;> simp_all
    · intro _ _ h3
      simp_all
  · have hl : decompose_task ids d =
        [{ id := ids 0, description := "Create tests for: " ++ d,
           agent_type := AgentType.testing, dependencies := [] }] := by
      simp [decompose_task, hc, ht, hd]
    rw [hl]
    refine ⟨?_, ?_, ?_, ?_⟩
    · intro pre st post heq dep hdep
      replace heq := heq.symm
      rcases pre with _ | ⟨a, pre⟩ <;> simp_all
    · intro st hst hty
      fin_cases hst <;> simp_all
    · intro st hst hty
      fin_cases hst <;> simp_all
    · intro _ h2 _
      simp_all
  · have hl : decompose_task ids d =
        [{ id := ids 0, description := "Create tests for: " ++ d,
           agent_type := AgentType.testing, dependencies := [] },
         { id := ids 1, description := "Generate documentation for: " ++ d,
           agent_type := AgentType.documentation, dependencies := [ids 0] }] := by
      simp [decompose_task, hc, ht, hd]
    rw [hl]
    refine ⟨?_, ?_, ?_, ?_⟩
    · intro pre st post heq dep hdep
      replace heq := heq.symm
      rcases pre with _ | ⟨a, _ | ⟨b, pre⟩⟩ <;> simp_all
    · intro st hst hty
      fin_cases hst <;> simp_all
    · intro st hst hty
      fin_cases hst <;> simp_all
    · intro _ h2 _
      simp_all
  · have hl : decompose_task ids d =
        [{ id := ids 0, description := "Implement: " ++ d,
           agent_type := AgentType.coding }] := by
      simp [decompose_task, hc, ht, hd]
    rw [hl]
    refine ⟨?_, ?_, ?_, ?_⟩
    · intro pre st post heq dep hdep
      replace heq := heq.symm
      rcases pre with _ | ⟨a, pre⟩ <;> simp_all
    · intro st hst hty
      fin_cases hst <;> simp_all
    · intro st hst hty
      fin_cases hst <;> simp_all
    · intro h1 _ _
      simp_all
  · have hl : decompose_task ids d =
        [{ id := ids 0, description := "Implement: " ++ d,
           agent_type := AgentType.coding },
         { id := ids 1, description := "Generate documentation for: " ++ d,
           agent_type := AgentType.documentation, dependencies := [ids 0] }] := by
      simp [decompose_task, hc, ht, hd]
    rw [hl]
    refine ⟨?_, ?_, ?_, ?_⟩
    · intro pre st post heq dep hdep
      replace heq := heq.symm
      rcases pre with _ | ⟨a, _ | ⟨b, pre⟩⟩ <;> simp_all
    · intro st hst hty
      fin_cases hst <;> simp_all
    · intro st hst hty
      fin_cases hst <;> simp_all
    · intro h1 _ _
      simp_all
  · have hl : decompose_task ids d =
        [{ id := ids 0, description := "Implement: " ++ d,
           agent_type := AgentType.coding },
         { id := ids 1, description := "Create tests for: " ++ d,
           agent_type := AgentType.testing, dependencies := [ids 0] }] := by
      simp [decompose_task, hc, ht, hd]
    rw [hl]
    refine ⟨?_, ?_, ?_, ?_⟩
    · intro pre st post heq dep hdep
      replace heq := heq.symm
      rcases pre with _ | ⟨a, _ | ⟨b, pre⟩⟩ <;> simp_all
    · intro st hst hty
      fin_cases hst <;> simp_all
    · intro st hst hty
      fin_cases hst <;> simp_all
    · intro h1 _ _
      simp_all
  · have hl : decompose_task ids d =
        [{ id := ids 0, description := "Implement: " ++ d,
           agent_type := AgentType.coding },
         { id := ids 1, description := "Create tests for: " ++ d,
           agent_type := AgentType.testing, dependencies := [ids 0] },
         { id := ids 2, description := "Generate documentation for: " ++ d,
           agent_type := AgentType.documentation, dependencies := [ids 0, ids 1] }] := by
      simp [decompose_task, hc, ht, hd]
    rw [hl]
    refine ⟨?_, ?_, ?_, ?_⟩
    · intro pre st post heq dep hdep
      replace heq := heq.symm
      rcases pre with _ | ⟨a, _ | ⟨b, _ | ⟨c, pre⟩⟩⟩ <;> simp_all
    · intro st hst hty
      fin_cases hst <;> simp_all
    · intro st hst hty
      fin_cases hst <;> simp_all
    · intro h1 _ _
      simp_all

/-- Witness for C8: in the three-family decomposition, the documentation
subtask's first dependency is an earlier subtask's id, and the testing
subtask depends exactly on the coding subtask's id. -/
theorem decompose_dependencies_witness :
    "0" ∈ (wDecompose.take 2).map Subtask.id ∧
    (wDecompose.getD 1 default).dependencies =
      (if hasCodingKw "implement, test and document this" then [toString 0] else []) :=
  ⟨(decompose_dependencies_strictly_earlier (fun n => toString n)
      "implement, test and document this").1 (wDecompose.take 2)
      (wDecompose.getD 2 default) [] (by with_unfolding_all decide) "0"
      (by with_unfolding_all decide),
    (decompose_dependencies_strictly_earlier (fun n => toString n)
      "implement, test and document this").2.1 (wDecompose.getD 1 default)
      (by with_unfolding_all decide) (by with_unfolding_all decide)⟩


/-! ## Claims about constraint extraction -/

/-- Matches reported by the `finditer` scan start at or after the scan
position and occur at strictly increasing positions. -/
theorem finditerAux_pairwise (r : Regex) (total : List Char) :
    ∀ (fuel pos : Nat),
      (∀ mt ∈ finditerAux r total pos fuel, pos ≤ mt.start) ∧
      List.Pairwise (fun a b => a.start < b.start) (finditerAux r total pos fuel) := by
  intro fuel
  induction fuel with
  | zero => intro pos; simp [finditerAux]
  | succ n ih =>
    intro pos
    simp only [finditerAux]
    by_cases hle : pos ≤ total.length
    · rw [if_pos hle]
      cases hm : matchAt r (total.drop pos) with
      | none =>
        dsimp only
        obtain ⟨h1, h2⟩ := ih (pos + 1)
        exact ⟨fun mt hmt => le_trans (by omega) (h1 mt hmt), h2⟩
      | some p =>
        obtain ⟨len, cap⟩ := p
        dsimp only
        obtain ⟨h1, h2⟩ := ih (if len = 0 then pos + 1 else pos + len)
        have hnext : pos + 1 ≤ (if len = 0 then pos + 1 else pos + len) := by
          split <;> omega
        refine ⟨?_, ?_⟩
        · intro mt hmt
          rcases List.mem_cons.mp hmt with rfl | hmem
          · exact le_refl _
          · have := h1 mt hmem
            omega
        · refine List.Pairwise.cons ?_ h2
          intro b hb
          have hge := h1 b hb
          show pos < b.start
          omega
    · rw [if_neg hle]
      simp

/-- Claim C7 counterexample: on a description whose numbered line precedes its
bullet line, `parse` emits the bullet-derived custom constraint first, not the
one that appears first in the document. -/
theorem parse_not_document_order_counterexample :
    ConstraintParser.parse "1. abcdefg\n- hijklmn" =
      [{ type := ConstraintType.custom, description := "hijklmn" },
       { type := ConstraintType.custom, description := "abcdefg" }] ∧
    patternConstraints "1. abcdefg\n- hijklmn" ++
        customConstraintsInDocOrder "1. abcdefg\n- hijklmn" =
      [{ type := ConstraintType.custom, description := "abcdefg" },
       { type := ConstraintType.custom, description := "hijklmn" }] ∧
    ConstraintParser.parse "1. abcdefg\n- hijklmn" ≠
      patternConstraints "1. abcdefg\n- hijklmn" ++
        customConstraintsInDocOrder "1. abcdefg\n- hijklmn" := by
  refine ⟨?_, ?_, ?_⟩ <;> with_unfolding_all decide

/-- Claim C7 (amended): `parse` returns all pattern-derived constraints in the
fixed table order of constraint kinds, followed by the custom constraints of
the bullet pattern in document order, followed by the custom constraints of
the numbered pattern in document order (not the two groups interleaved in
global document order). -/
theorem parse_order (d : String) :
    ConstraintParser.parse d = patternConstraints d ++ customConstraints d ∧
    patternConstraints d =
      (finditer tcPat1 d).map (mkPatternConstraint ConstraintType.test_coverage d) ++
      ((finditer tcPat2 d).map (mkPatternConstraint ConstraintType.test_coverage d) ++
      ((finditer langPat1 d).map (mkPatternConstraint ConstraintType.language d) ++
      ((finditer langPat2 d).map (mkPatternConstraint ConstraintType.language d) ++
      ((finditer fwPat d).map (mkPatternConstraint ConstraintType.framework d) ++
      ((finditer compPat d).map (mkPatternConstraint ConstraintType.compliance d) ++
      ((finditer ofPat1 d).map (mkPatternConstraint ConstraintType.output_format d) ++
      (finditer ofPat2 d).map (mkPatternConstraint ConstraintType.output_format d))))))) ∧
    customConstraints d =
      (finditer bulletPat d).filterMap mkCustomConstraint ++
      (finditer numberedPat d).filterMap mkCustomConstraint ∧
    List.Pairwise (fun a b => a.start < b.start) (finditer bulletPat d) ∧
    List.Pairwise (fun a b => a.start < b.start) (finditer numberedPat d) := by
  refine ⟨rfl, ?_, ?_, ?_, ?_⟩
  · simp [patternConstraints, PATTERNS]
  · simp [customConstraints, requirementPatterns]
  · exact (finditerAux_pairwise bulletPat d.data (d.data.length + 1) 0).2
  · exact (finditerAux_pairwise numberedPat d.data (d.data.length + 1) 0).2

end AIM
